import Mathlib

/-!
Shallow embedding of `utils.py` from the Job-satisfaction repository.

The repository has two functions operating on tabular data:
  * `add_bias` (the spec calls it `inject_bias`): perturbs a consequent
    column to inject a statistical dependency with an antecedent column;
  * `compute_cpd`: computes the empirical conditional probability table
    of a target variable given a list of evidence variables.

Modelling choices:
  * a table row is a total map from column names to integer ordinal values
    (`Row := String → Int`); a dataset is a list of rows;
  * Python float arithmetic on probabilities is modelled by exact rationals;
  * Python's runtime errors (ZeroDivisionError from `amount/(len-1)`,
    IndexError from `variable_support[-1]` on an empty support) are modelled
    by an `Except PyError` result;
  * the shared `random.uniform(0,1)` generator is modelled by an explicit
    stream of rationals together with a position counter, threaded through
    the computation exactly in Python's evaluation order (the first draw of
    `modify_consequent_value` always happens; the second only when the
    first branch is not taken, matching `and` short-circuiting);
  * aliasing / in-place mutation of DataFrame objects is modelled by a
    store of dataframes addressed by references, used for the non-mutation
    claim.
-/

/-- Runtime errors the code can raise, plus the error class the spec asks
for. `degenerateSupportErr` is modelled from the spec: §7 names a
`DegenerateSupportError` class which does not exist anywhere in `src/`. -/
inductive PyError where
  | zeroDivisionErr
  | indexErr
  | degenerateSupportErr
  deriving DecidableEq, Repr

/-- A table row: a total map from column name to ordinal integer value. -/
abbrev Row : Type := String → Int

/-- A dataset (`pd.DataFrame`): a list of rows in order. -/
abbrev Df : Type := List Row

/-- `sorted(data[col].unique())`: the sorted list of distinct values of a
column. -/
def support (data : Df) (col : String) : List Int :=
  ((data.map (fun r => r col)).dedup).insertionSort (· ≤ ·)

/-- `data[col].max()` (0 on an empty table, never used there). -/
def colMax (data : Df) (col : String) : Int :=
  match data.map (fun r => r col) with
  | [] => 0
  | x :: xs => xs.foldl max x

/-- `data[col].min()` (0 on an empty table, never used there). -/
def colMin (data : Df) (col : String) : Int :=
  match data.map (fun r => r col) with
  | [] => 0
  | x :: xs => xs.foldl min x

/-- The state of the shared random generator: a stream of values that
`random.uniform(0,1)` will return, and the position of the next draw. -/
structure RandState where
  stream : Nat → ℚ
  pos : Nat

/-- Draw one value from the generator. -/
def RandState.draw (rs : RandState) : ℚ × RandState :=
  (rs.stream rs.pos, ⟨rs.stream, rs.pos + 1⟩)

/-- Overwrite one column of a row. -/
def updateRow (r : Row) (col : String) (v : Int) : Row :=
  fun c => if c = col then v else r c

/-- `modify_consequent_value` from `add_bias`: with the current decrease
probability `neg`, drop the value one step when it is above `lo`; else with
the increase probability `pos`, raise it one step when below `hi`; else keep
it.  Python draws a second uniform only when the first branch is not taken. -/
def modifyConsequentValue (neg pos : ℚ) (lo hi : Int) (v : Int)
    (rs : RandState) : Int × RandState :=
  let d1 := rs.draw
  if d1.1 ≤ neg ∧ lo < v then (v - 1, d1.2)
  else
    let d2 := d1.2.draw
    if d2.1 ≤ pos ∧ v < hi then (v + 1, d2.2) else (v, d2.2)

/-- One pass of `add_bias`'s loop body: map `modify_consequent_value` over
the consequent value of every row whose antecedent value is `≥ t`, in row
order, leaving the other rows untouched. -/
def applyPass (ant cons : String) (t : Int) (neg pos : ℚ) (lo hi : Int) :
    Df → RandState → Df × RandState
  | [], rs => ([], rs)
  | r :: rest, rs =>
    if t ≤ r ant then
      let m := modifyConsequentValue neg pos lo hi (r cons) rs
      let rec1 := applyPass ant cons t neg pos lo hi rest m.2
      (updateRow r cons m.1 :: rec1.1, rec1.2)
    else
      let rec1 := applyPass ant cons t neg pos lo hi rest rs
      (r :: rec1.1, rec1.2)

/-- The threshold loop of `add_bias`: iterate over the antecedent support in
order, applying one pass per threshold and then moving `neg` down and `pos`
up by `step`. -/
def addBiasLoop (ant cons : String) (lo hi : Int) (step : ℚ) :
    List Int → ℚ → ℚ → Df → RandState → Df × RandState
  | [], _, _, rows, rs => (rows, rs)
  | t :: ts, neg, pos, rows, rs =>
    let p := applyPass ant cons t neg pos lo hi rows rs
    addBiasLoop ant cons lo hi step ts (neg - step) (pos + step) p.1 p.2

/-- The order in which `add_bias` traverses the antecedent values: the
sorted support, reversed when `positive` is false. -/
def antOrder (data : Df) (ant : String) (positive : Bool) : List Int :=
  if positive then support data ant else (support data ant).reverse

/-- `add_bias(data, antecedent, consequent, positive, amount)`.  The sorted
antecedent support is reversed when `positive` is false; the computation of
`step_amount = amount/(len(antecedent_support)-1)` raises ZeroDivisionError
when the support has exactly one element. -/
def addBias (data : Df) (ant cons : String) (positive : Bool) (amount : ℚ)
    (rs : RandState) : Except PyError Df :=
  let antSupport := antOrder data ant positive
  let hi := colMax data cons
  let lo := colMin data cons
  if (antSupport.length : Int) - 1 = 0 then
    .error .zeroDivisionErr
  else
    let step := amount / ((antSupport.length : ℚ) - 1)
    .ok (addBiasLoop ant cons lo hi step antSupport amount 0 data rs).1

/-- The consequent column of an `add_bias` result, for stating concrete
facts about outputs. -/
def consColumn (res : Except PyError Df) (col : String) : Option (List Int) :=
  res.toOption.map (fun rows => rows.map (fun r => r col))

/-! ## `compute_cpd`

In the definitions below `varName` stands for the Python parameter
`variable` (a Lean keyword). -/

/-- `itertools.product` over a list of lists, leftmost list varying
slowest. -/
def cartProd : List (List Int) → List (List Int)
  | [] => [[]]
  | xs :: rest => xs.flatMap (fun x => (cartProd rest).map (fun cs => x :: cs))

/-- The list of row constraint tuples of the CPD: one row with no
constraints when `evidences is None`, else the Cartesian product of the
sorted supports of the evidence columns. -/
def rowsConstraints (data : Df) (evidences : Option (List String)) :
    List (List Int) :=
  match evidences with
  | none => [[]]
  | some evs => cartProd (evs.map (fun e => support data e))

/-- The successive narrowing of the dataset by the constraints
`X1==x1, ..., Xk==xk`: `data_supp = data_supp[data_supp[evidence]==constr]`
applied in order, starting from a copy of `data`. -/
def rowFiltered (data : Df) (evidences : List String) (cs : List Int) : Df :=
  (evidences.zip cs).foldl
    (fun d p => d.filter (fun r => r p.1 == p.2)) data

/-- The human-readable row label built from the constraints:
`' {evidence}=={constr} '` concatenated in order. -/
def rowLabel (evidences : List String) (cs : List Int) : String :=
  (evidences.zip cs).foldl
    (fun acc p => acc ++ " " ++ p.1 ++ "==" ++ toString p.2 ++ " ") ""

/-- One raw row of the CPD before the fill-in: for each target value `v`
the cell is `count(filtered where variable == v)/count(filtered)`; when the
filtered subset is empty, every cell of the row is 0/0 = NaN, modelled as
`none`. -/
def cpdRawRow (filtered : Df) (varName : String) (supp : List Int) :
    List (Option ℚ) :=
  if filtered.length = 0 then supp.map (fun _ => none)
  else supp.map (fun v =>
    some (((filtered.filter (fun r => r varName == v)).length : ℚ) /
      (filtered.length : ℚ)))

/-- All raw rows of the CPD, in constraint-tuple order. -/
def cpdRawRows (data : Df) (varName : String)
    (evidences : Option (List String)) : List (List (Option ℚ)) :=
  (rowsConstraints data evidences).map (fun cs =>
    cpdRawRow (rowFiltered data (evidences.getD []) cs) varName
      (support data varName))

/-- The NaN-as-zero sum of column `j` over the raw rows: the column sum of
`cpd.fillna(0.0)[variable_value]`. -/
def colZeroSum (rows : List (List (Option ℚ))) (j : Nat) : ℚ :=
  (rows.map (fun row => (row.getD j none).getD 0)).sum

/-- The fill values of line 170-171 of the source, as a list aligned with
the sorted target support: for every column but the last, the value is
`cpd.fillna(0.0)[variable_value].mean()`, i.e. the NaN-as-zero column sum
divided by the number of CPD rows; the last column's value is `1` minus the
sum of the others. -/
def fillList (m : Nat) (rows : List (List (Option ℚ))) : List ℚ :=
  let init := (List.range (m - 1)).map
    (fun j => colZeroSum rows j / (rows.length : ℚ))
  init ++ [1 - init.sum]

/-- `cpd.fillna(values)` on one row: keep defined cells, replace NaN cells
with the fill value of their column. -/
def fillRow (row : List (Option ℚ)) (fills : List ℚ) : List ℚ :=
  (row.zip fills).map (fun p => p.1.getD p.2)

/-- The result of `compute_cpd`: row labels (the `Evidences` index), the
column labels (the sorted target support) and the table of probabilities. -/
structure Cpd where
  labels : List String
  columns : List Int
  rows : List (List ℚ)
  deriving DecidableEq

/-- `compute_cpd(data, variable, evidences)`.  When the target support is
empty (zero-row dataset), line 171 `variable_support[-1]` raises IndexError;
otherwise the raw rows are computed and the missing values filled in. -/
def computeCpd (data : Df) (varName : String)
    (evidences : Option (List String)) : Except PyError Cpd :=
  let supp := support data varName
  if supp.length = 0 then .error .indexErr
  else
    let raw := cpdRawRows data varName evidences
    let fills := fillList supp.length raw
    .ok { labels := (rowsConstraints data evidences).map
            (fun cs => rowLabel (evidences.getD []) cs)
          columns := supp
          rows := raw.map (fun row => fillRow row fills) }

/-! ## Store-level model of object mutation

Python DataFrames are heap objects mutated in place.  To state the
non-mutation claim, a store of dataframe objects is threaded through the
two functions: `data.copy()` allocates a fresh object; `data.loc[...] = ...`
writes through a reference.  All other operations are reads. -/

/-- A heap of DataFrame objects, addressed by allocation index. -/
abbrev Store := List Df

/-- Dereference a DataFrame object. -/
def readDf (s : Store) (i : Nat) : Df := s.getD i []

/-- `d.copy()`: allocate a fresh object holding `d`'s rows. -/
def allocDf (s : Store) (d : Df) : Store × Nat := (s ++ [d], s.length)

/-- In-place mutation of the object at index `i`. -/
def writeDf (s : Store) (i : Nat) (d : Df) : Store := s.set i d

/-- The threshold loop of `add_bias`, acting on the store: each pass reads
the copied dataframe, resamples it and writes it back in place. -/
def addBiasLoopImp (ant cons : String) (lo hi : Int) (step : ℚ) :
    List Int → ℚ → ℚ → Store → Nat → RandState → Store × RandState
  | [], _, _, s, _, rs => (s, rs)
  | t :: ts, neg, pos, s, i, rs =>
    let p := applyPass ant cons t neg pos lo hi (readDf s i) rs
    addBiasLoopImp ant cons lo hi step ts (neg - step) (pos + step)
      (writeDf s i p.1) i p.2

/-- `add_bias` at the store level: `data = data.copy()` allocates, the loop
mutates only the copy, and the reference to the copy is returned. -/
def addBiasImp (s : Store) (ref : Nat) (ant cons : String) (positive : Bool)
    (amount : ℚ) (rs : RandState) : Except PyError (Store × Nat × RandState) :=
  let a := allocDf s (readDf s ref)
  let d := readDf a.1 a.2
  let antSupport := antOrder d ant positive
  let hi := colMax d cons
  let lo := colMin d cons
  if (antSupport.length : Int) - 1 = 0 then
    .error .zeroDivisionErr
  else
    let step := amount / ((antSupport.length : ℚ) - 1)
    let l := addBiasLoopImp ant cons lo hi step antSupport amount 0 a.1 a.2 rs
    .ok (l.1, a.2, l.2)

/-- The row loop of `compute_cpd` at the store level: each iteration
allocates `data_supp = data.copy()` and then only filters (rebinding, no
mutation of any existing object). -/
def cpdRawRowsImp (varName : String) (evidences : List String)
    (supp : List Int) (dref : Nat) :
    Store → List (List Int) → Store × List (List (Option ℚ))
  | s, [] => (s, [])
  | s, cs :: rest =>
    let a := allocDf s (readDf s dref)
    let filtered := (evidences.zip cs).foldl
      (fun d p => d.filter (fun r => r p.1 == p.2)) (readDf a.1 a.2)
    let row := cpdRawRow filtered varName supp
    let rec1 := cpdRawRowsImp varName evidences supp dref a.1 rest
    (rec1.1, row :: rec1.2)

/-- `compute_cpd` at the store level. -/
def computeCpdImp (s : Store) (dref : Nat) (varName : String)
    (evidences : Option (List String)) : Except PyError (Store × Cpd) :=
  let supp := support (readDf s dref) varName
  if supp.length = 0 then .error .indexErr
  else
    let data := readDf s dref
    let pr := cpdRawRowsImp varName (evidences.getD []) supp dref s
      (rowsConstraints data evidences)
    let fills := fillList supp.length pr.2
    .ok (pr.1, { labels := (rowsConstraints data evidences).map
                   (fun cs => rowLabel (evidences.getD []) cs)
                 columns := supp
                 rows := pr.2.map (fun row => fillRow row fills) })

/-- The store after a call to `add_bias` (unchanged when the call raised
before mutating anything, which is what the code does). -/
def storeAfterAddBias (s : Store) (ref : Nat) (ant cons : String)
    (positive : Bool) (amount : ℚ) (rs : RandState) : Store :=
  match addBiasImp s ref ant cons positive amount rs with
  | .ok (s1, _, _) => s1
  | .error _ => s

/-- The store after a call to `compute_cpd`. -/
def storeAfterComputeCpd (s : Store) (dref : Nat) (varName : String)
    (evidences : Option (List String)) : Store :=
  match computeCpdImp s dref varName evidences with
  | .ok (s1, _) => s1
  | .error _ => s

/-! ## Spec-side definition for the fill-in refinement claim -/

/-- Modelled from the spec: §4.2 step 5 prescribes, for every non-last
column, "the mean of the non-missing values in that same column across all
rows (computed after treating missing as excluded, i.e., mean over defined
entries only; if no entries are defined the mean is treated as 0.0)".  This
definition follows those words; it is compared against the fill values the
code actually computes. -/
def specFillMeanDefined (rows : List (List (Option ℚ))) (j : Nat) : ℚ :=
  let defined := (rows.map (fun row => row.getD j none)).reduceOption
  if defined.length = 0 then 0 else defined.sum / (defined.length : ℚ)

/-! ## Concrete fixtures -/

/-- A row of a two-column table with columns `A` and `X` (reading any other
column name yields the `X` value; only `A` and `X` are ever read). -/
def rowAX (a x : Int) : Row := fun c => if c = "A" then a else x

/-- The spec's CPD scenario dataset: rows (A,X) = (0,0),(0,1),(1,1),(1,1). -/
def dataA : Df := [rowAX 0 0, rowAX 0 1, rowAX 1 1, rowAX 1 1]

/-- A row of a three-column table with columns `A`, `B` and `X`. -/
def rowABX (a b x : Int) : Row :=
  fun c => if c = "A" then a else if c = "B" then b else x

/-- A dataset whose evidence pairs (A,B) = (0,1) and (1,0) match no rows:
used to exercise the fill-in policy. -/
def dataB : Df := [rowABX 0 0 0, rowABX 1 1 1]

/-- A row of a two-column table with columns `A` and `C`. -/
def rowAC (a v : Int) : Row := fun c => if c = "A" then a else v

/-- The all-zero draw stream: `random.uniform(0,1)` returning 0 every time
(a possible outcome). -/
def rs0 : RandState := ⟨fun _ => 0, 0⟩

/-- Dataset with a degenerate (single-value) antecedent column `A`. -/
def dataC : Df := [rowAC 0 0, rowAC 0 1]

/-- Dataset with antecedent support {0,1} and non-contiguous consequent
support {0,2}. -/
def data2 : Df := [rowAC 0 0, rowAC 1 2]

/-- Dataset with antecedent support {0,1,2}: its middle row is resampled in
two passes. -/
def data3 : Df := [rowAC 0 0, rowAC 1 2, rowAC 2 2]

/-- The observable parts of a `compute_cpd` result. -/
def cpdParts (res : Except PyError Cpd) :
    Option (List String × List Int × List (List ℚ)) :=
  res.toOption.map (fun c => (c.labels, c.columns, c.rows))

/-- Extract the dataset from a successful `add_bias` result. -/
def outOf (e : Except PyError Df) : Df :=
  match e with
  | .ok d => d
  | .error _ => []

/-- Extract the CPD from a successful `compute_cpd` result. -/
def cpdOf (e : Except PyError Cpd) : Cpd :=
  match e with
  | .ok c => c
  | .error _ => ⟨[], [], []⟩
/-! ## Basic facts about `support` -/

theorem support_nodup (data : Df) (col : String) : (support data col).Nodup :=
  (List.perm_insertionSort _ _).nodup_iff.mpr (List.nodup_dedup _)

theorem mem_support {data : Df} {col : String} {v : Int} :
    v ∈ support data col ↔ ∃ r ∈ data, r col = v := by
  unfold support
  rw [List.mem_insertionSort, List.mem_dedup, List.mem_map]

theorem support_sorted_le (data : Df) (col : String) :
    (support data col).Sorted (· ≤ ·) :=
  List.sorted_insertionSort _ _

theorem support_sorted_lt (data : Df) (col : String) :
    (support data col).Sorted (· < ·) :=
  (support_sorted_le data col).lt_of_le (support_nodup data col)

theorem modify_result_cases (neg pos : ℚ) (lo hi v : Int) (rs : RandState) :
    (modifyConsequentValue neg pos lo hi v rs).1 = v - 1 ∨
    (modifyConsequentValue neg pos lo hi v rs).1 = v ∨
    (modifyConsequentValue neg pos lo hi v rs).1 = v + 1 := by
  unfold modifyConsequentValue RandState.draw
  dsimp only
  split
  · exact .inl rfl
  · split
    · exact .inr (.inr rfl)
    · exact .inr (.inl rfl)

theorem modify_mem_Icc {neg pos : ℚ} {lo hi v : Int} {rs : RandState}
    (hlo : lo ≤ v) (hhi : v ≤ hi) :
    lo ≤ (modifyConsequentValue neg pos lo hi v rs).1 ∧
    (modifyConsequentValue neg pos lo hi v rs).1 ≤ hi := by
  unfold modifyConsequentValue RandState.draw
  dsimp only
  split
  · next h => exact ⟨by omega, by omega⟩
  · split
    · next h => exact ⟨by omega, by omega⟩
    · exact ⟨hlo, hhi⟩

theorem le_foldl_max (l : List Int) (b a : Int) (h : a ≤ b ∨ a ∈ l) :
    a ≤ l.foldl max b := by
  induction l generalizing b with
  | nil => simp_all
  | cons x xs ih =>
    simp only [List.foldl_cons]
    rcases h with hb | hx
    · exact ih (max b x) (.inl (by omega))
    · rcases List.mem_cons.mp hx with rfl | hx
      · exact ih (max b a) (.inl (by omega))
      · exact ih (max b x) (.inr hx)

theorem foldl_min_le (l : List Int) (b a : Int) (h : b ≤ a ∨ a ∈ l) :
    l.foldl min b ≤ a := by
  induction l generalizing b with
  | nil => simp_all
  | cons x xs ih =>
    simp only [List.foldl_cons]
    rcases h with hb | hx
    · exact ih (min b x) (.inl (by omega))
    · rcases List.mem_cons.mp hx with rfl | hx
      · exact ih (min b a) (.inl (by omega))
      · exact ih (min b x) (.inr hx)

theorem colMin_le_colMax {data : Df} {col : String} {r : Row} (h : r ∈ data) :
    colMin data col ≤ r col ∧ r col ≤ colMax data col := by
  cases data with
  | nil => cases h
  | cons r0 rest =>
    unfold colMin colMax
    simp only [List.map_cons]
    rcases List.mem_cons.mp h with rfl | h
    · exact ⟨foldl_min_le _ _ _ (.inl le_rfl), le_foldl_max _ _ _ (.inl le_rfl)⟩
    · have : r col ∈ rest.map (fun r => r col) := List.mem_map_of_mem _ h
      exact ⟨foldl_min_le _ _ _ (.inr this), le_foldl_max _ _ _ (.inr this)⟩

theorem applyPass_bounds {ant cons : String} {t : Int} {neg pos : ℚ}
    {lo hi : Int} :
    ∀ {rows : Df} {rs : RandState},
      (∀ r ∈ rows, lo ≤ r cons ∧ r cons ≤ hi) →
      ∀ r ∈ (applyPass ant cons t neg pos lo hi rows rs).1,
        lo ≤ r cons ∧ r cons ≤ hi := by
  intro rows
  induction rows with
  | nil => intro rs h r hr; simp [applyPass] at hr
  | cons r0 rest ih =>
    intro rs h r hr
    rw [applyPass] at hr
    split at hr
    · dsimp only at hr
      rcases List.mem_cons.mp hr with rfl | hr
      · have h0 := h r0 (List.mem_cons_self _ _)
        have hm := @modify_mem_Icc neg pos lo hi (r0 cons) rs h0.1 h0.2
        simpa [updateRow] using hm
      · exact ih (fun r hr => h r (List.mem_cons_of_mem _ hr)) r hr
    · dsimp only at hr
      rcases List.mem_cons.mp hr with rfl | hr
      · exact h r (List.mem_cons_self _ _)
      · exact ih (fun r hr => h r (List.mem_cons_of_mem _ hr)) r hr

theorem addBiasLoop_bounds {ant cons : String} {lo hi : Int} {step : ℚ} :
    ∀ (ts : List Int) {neg pos : ℚ} {rows : Df} {rs : RandState},
      (∀ r ∈ rows, lo ≤ r cons ∧ r cons ≤ hi) →
      ∀ r ∈ (addBiasLoop ant cons lo hi step ts neg pos rows rs).1,
        lo ≤ r cons ∧ r cons ≤ hi := by
  intro ts
  induction ts with
  | nil => intro neg pos rows rs h; simpa [addBiasLoop] using h
  | cons t ts ih =>
    intro neg pos rows rs h
    rw [addBiasLoop]
    exact ih (applyPass_bounds h)

/-- C8: for every dataset, arguments and outcome of the random draws, every
consequent value in the `add_bias` output lies within the closed interval
`[min, max]` of the input consequent column. -/
theorem addBias_bounds_preserved (data : Df) (ant cons : String)
    (positive : Bool) (amount : ℚ) (rs : RandState) (out : Df)
    (h : addBias data ant cons positive amount rs = .ok out) :
    ∀ r ∈ out, colMin data cons ≤ r cons ∧ r cons ≤ colMax data cons := by
  unfold addBias at h
  dsimp only at h
  split at h
  · exact absurd h (by simp)
  · rw [← Except.ok.inj h]
    exact addBiasLoop_bounds _ (fun r hr => colMin_le_colMax hr)

/-- Witness for C8 at a concrete dataset and draw stream. -/
theorem addBias_bounds_preserved_witness :
    addBias data2 "A" "C" true 1 rs0 =
      .ok (outOf (addBias data2 "A" "C" true 1 rs0)) ∧
    ∀ r ∈ outOf (addBias data2 "A" "C" true 1 rs0),
      colMin data2 "C" ≤ r "C" ∧ r "C" ≤ colMax data2 "C" :=
  ⟨rfl, addBias_bounds_preserved data2 "A" "C" true 1 rs0 _ rfl⟩

/-- C10: on a dataset with zero rows the target support is empty and
`compute_cpd` raises (IndexError at `variable_support[-1]`) instead of
returning an empty CPD. -/
theorem computeCpd_empty_data_raises (varName : String)
    (evidences : Option (List String)) :
    computeCpd ([] : Df) varName evidences = .error .indexErr := rfl

/-- C5 counterexample: on a dataset whose antecedent column has exactly one
distinct value, `add_bias` fails with the built-in ZeroDivisionError, not
with the explicitly-guarded DegenerateSupportError the claim names. -/
theorem addBias_degenerate_not_guarded :
    addBias dataC "A" "C" true (1/5) rs0 = .error .zeroDivisionErr ∧
    (Except.error .zeroDivisionErr : Except PyError Df) ≠
      .error .degenerateSupportErr :=
  ⟨rfl, by simp⟩

/-- C5 (amended): whenever the antecedent support has exactly one element,
`add_bias` fails — with the unguarded ZeroDivisionError from
`amount/(len(antecedent_support)-1)`, so no NaN/Inf is propagated. -/
theorem addBias_degenerate_raises (data : Df) (ant cons : String)
    (positive : Bool) (amount : ℚ) (rs : RandState)
    (h : (support data ant).length = 1) :
    addBias data ant cons positive amount rs = .error .zeroDivisionErr := by
  unfold addBias antOrder
  cases positive <;> simp [h]

/-- Witness for the amended C5. -/
theorem addBias_degenerate_raises_witness :
    (support dataC "A").length = 1 ∧
    addBias dataC "A" "C" false (3/10) rs0 = .error .zeroDivisionErr :=
  ⟨by decide,
   addBias_degenerate_raises dataC "A" "C" false (3/10) rs0 (by decide)⟩

/-- C7 counterexample: with consequent support {0, 2} (not contiguous), a
possible outcome of the draws makes `add_bias` produce the consequent value
1, which is not a member of the input consequent column's support. -/
theorem addBias_output_can_leave_support :
    consColumn (addBias data2 "A" "C" true 1 rs0) "C" = some [1, 0] ∧
    support data2 "C" = [0, 2] ∧ (1 : Int) ∉ ([0, 2] : List Int) := by
  refine ⟨?_, by decide, by decide⟩
  with_unfolding_all decide

/-- C7 (amended): each decrease or increase performed by
`modify_consequent_value` moves the consequent value by exactly one
arithmetic unit (`value - 1` / `value + 1`), not to the adjacent member of
the observed support; outputs therefore stay in `[min, max]` but need not
belong to the support set. -/
theorem modify_consequent_one_unit_step (neg pos : ℚ) (lo hi v : Int)
    (rs : RandState) :
    (modifyConsequentValue neg pos lo hi v rs).1 = v - 1 ∨
    (modifyConsequentValue neg pos lo hi v rs).1 = v ∨
    (modifyConsequentValue neg pos lo hi v rs).1 = v + 1 :=
  modify_result_cases neg pos lo hi v rs

theorem forall2_trans {α : Type} {P Q R : α → α → Prop}
    (h : ∀ a b c, P a b → Q b c → R a c) :
    ∀ {l1 l2 l3 : List α}, List.Forall₂ P l1 l2 → List.Forall₂ Q l2 l3 →
      List.Forall₂ R l1 l3 := by
  intro l1 l2 l3 h12
  induction h12 generalizing l3 with
  | nil => intro h23; cases h23; exact .nil
  | cons hab h12 ih =>
    intro h23
    cases h23 with
    | cons hbc h23 => exact .cons (h _ _ _ hab hbc) (ih h23)

theorem applyPass_shift {ant cons : String} {t : Int} {neg pos : ℚ}
    {lo hi : Int} :
    ∀ {rows : Df} {rs : RandState},
      List.Forall₂ (fun r r1 : Row =>
        (∀ c, c ≠ cons → r1 c = r c) ∧
        ((r1 cons - r cons).natAbs ≤ if t ≤ r ant then 1 else 0))
      rows (applyPass ant cons t neg pos lo hi rows rs).1 := by
  intro rows
  induction rows with
  | nil => intro rs; exact .nil
  | cons r0 rest ih =>
    intro rs
    rw [applyPass]
    split
    · next hsel =>
      dsimp only
      refine .cons ⟨fun c hc => ?_, ?_⟩ ih
      · simp [updateRow, hc]
      · have := modify_result_cases neg pos lo hi (r0 cons) rs
        simp only [updateRow, if_pos rfl, if_pos hsel]
        omega
    · next hsel =>
      dsimp only
      exact .cons ⟨fun c _ => rfl, by simp [if_neg hsel]⟩ ih

theorem addBiasLoop_shift {ant cons : String} {lo hi : Int} {step : ℚ}
    (hne : ant ≠ cons) :
    ∀ (ts : List Int) {neg pos : ℚ} {rows : Df} {rs : RandState},
      List.Forall₂ (fun r r2 : Row =>
        (∀ c, c ≠ cons → r2 c = r c) ∧
        (r2 cons - r cons).natAbs ≤
          (ts.filter (fun x => decide (x ≤ r ant))).length)
      rows (addBiasLoop ant cons lo hi step ts neg pos rows rs).1 := by
  intro ts
  induction ts with
  | nil =>
    intro neg pos rows rs
    rw [addBiasLoop]
    exact List.forall₂_same.mpr (fun r _ => ⟨fun c _ => rfl, by simp⟩)
  | cons t ts ih =>
    intro neg pos rows rs
    rw [addBiasLoop]
    refine forall2_trans ?_ applyPass_shift ih
    rintro a b c ⟨hab, habs⟩ ⟨hbc, hbcs⟩
    refine ⟨fun col hcol => (hbc col hcol).trans (hab col hcol), ?_⟩
    have hant : b ant = a ant := hab ant hne
    rw [hant] at hbcs
    rw [List.filter_cons]
    by_cases hsel : t ≤ a ant
    · rw [decide_eq_true hsel, if_pos rfl, List.length_cons]
      rw [if_pos hsel] at habs
      omega
    · rw [decide_eq_false hsel, if_neg (by simp)]
      rw [if_neg hsel] at habs
      omega

/-- C6 counterexample: input consequent column [0,2,2]; with the all-zero
draw stream the output is [1,0,1], so the middle row's consequent moved by
two ordinal levels, not at most one. -/
theorem addBias_shift_can_exceed_one :
    data3.map (fun r => r "C") = [0, 2, 2] ∧
    consColumn (addBias data3 "A" "C" true 1 rs0) "C" = some [1, 0, 1] ∧
    ¬ (((0 : Int) - 2).natAbs ≤ 1) := by
  refine ⟨by decide, ?_, by decide⟩
  with_unfolding_all decide

/-- C6 (amended): for every dataset, arguments with distinct antecedent and
consequent columns, and outcome of the draws, the `add_bias` output has the
same number of rows as the input and leaves every non-consequent column
unchanged; each row's consequent value is shifted by at most one level per
resampling pass, hence in total by at most the number of thresholds in the
traversed antecedent support that are ≤ the row's antecedent value. -/
theorem addBias_shape_and_cumulative_shift (data : Df) (ant cons : String)
    (positive : Bool) (amount : ℚ) (rs : RandState) (out : Df)
    (hne : ant ≠ cons)
    (h : addBias data ant cons positive amount rs = .ok out) :
    out.length = data.length ∧
    List.Forall₂ (fun r r2 : Row =>
      (∀ c, c ≠ cons → r2 c = r c) ∧
      (r2 cons - r cons).natAbs ≤
        ((antOrder data ant positive).filter
          (fun x => decide (x ≤ r ant))).length) data out := by
  unfold addBias at h
  dsimp only at h
  split at h
  · exact absurd h (by simp)
  · rw [← Except.ok.inj h]
    exact ⟨(addBiasLoop_shift hne _).length_eq.symm, addBiasLoop_shift hne _⟩

/-- Witness for the amended C6. -/
theorem addBias_shape_shift_witness :
    ("A" : String) ≠ "C" ∧
    addBias data3 "A" "C" true 1 rs0 =
      .ok (outOf (addBias data3 "A" "C" true 1 rs0)) ∧
    ((outOf (addBias data3 "A" "C" true 1 rs0)).length = data3.length ∧
     List.Forall₂ (fun r r2 : Row =>
       (∀ c, c ≠ "C" → r2 c = r c) ∧
       (r2 "C" - r "C").natAbs ≤
         ((antOrder data3 "A" true).filter
           (fun x => decide (x ≤ r "A"))).length)
       data3 (outOf (addBias data3 "A" "C" true 1 rs0))) :=
  ⟨by decide, rfl,
   addBias_shape_and_cumulative_shift data3 "A" "C" true 1 rs0 _
     (by decide) rfl⟩

/-! ## Non-mutation at the store level -/

theorem readDf_alloc {s : Store} {d : Df} {j : Nat} (h : j < s.length) :
    readDf (allocDf s d).1 j = readDf s j := by
  unfold readDf allocDf
  rw [List.getD_eq_getElem?_getD, List.getD_eq_getElem?_getD,
    List.getElem?_append_left h]

theorem readDf_write_ne {s : Store} {i j : Nat} {d : Df} (h : i ≠ j) :
    readDf (writeDf s i d) j = readDf s j := by
  unfold readDf writeDf
  rw [List.getD_eq_getElem?_getD, List.getD_eq_getElem?_getD,
    List.getElem?_set_ne h]

theorem addBiasLoopImp_read_ne {ant cons : String} {lo hi : Int} {step : ℚ} :
    ∀ (ts : List Int) {neg pos : ℚ} {s : Store} {i j : Nat} {rs : RandState},
      i ≠ j →
      readDf (addBiasLoopImp ant cons lo hi step ts neg pos s i rs).1 j =
        readDf s j := by
  intro ts
  induction ts with
  | nil => intro neg pos s i j rs _; rfl
  | cons t ts ih =>
    intro neg pos s i j rs hne
    rw [addBiasLoopImp]
    exact (ih hne).trans (readDf_write_ne hne)

theorem cpdRawRowsImp_read {varName : String} {evidences : List String}
    {supp : List Int} {dref : Nat} :
    ∀ (css : List (List Int)) {s : Store} {j : Nat}, j < s.length →
      readDf (cpdRawRowsImp varName evidences supp dref s css).1 j =
        readDf s j := by
  intro css
  induction css with
  | nil => intro s j _; rfl
  | cons cs css ih =>
    intro s j hj
    rw [cpdRawRowsImp]
    dsimp only
    have hj1 : j < ((allocDf s (readDf s dref)).1).length := by
      unfold allocDf
      simp only [List.length_append, List.length_cons, List.length_nil]
      omega
    exact (ih hj1).trans (readDf_alloc hj)

/-- C9: neither `add_bias` nor `compute_cpd` mutates the dataset object the
caller passed in: at the store level, the object at the caller's reference
is unchanged after either call. -/
theorem addBias_computeCpd_nonmutating (s : Store) (ref : Nat)
    (ant cons varName : String) (positive : Bool) (amount : ℚ)
    (rs : RandState) (evidences : Option (List String))
    (h : ref < s.length) :
    readDf (storeAfterAddBias s ref ant cons positive amount rs) ref =
      readDf s ref ∧
    readDf (storeAfterComputeCpd s ref varName evidences) ref =
      readDf s ref := by
  constructor
  · unfold storeAfterAddBias addBiasImp
    dsimp only
    split
    · next s1 r1 rs1 heq =>
      split at heq
      · exact absurd heq (by simp)
      · obtain ⟨h1, -⟩ := Prod.mk.inj (Except.ok.inj heq)
        rw [← h1]
        dsimp only [allocDf]
        refine (addBiasLoopImp_read_ne _ ?_).trans (readDf_alloc h)
        omega
    · rfl
  · unfold storeAfterComputeCpd computeCpdImp
    dsimp only
    split
    · next s1 c1 heq =>
      split at heq
      · exact absurd heq (by simp)
      · obtain ⟨h1, -⟩ := Prod.mk.inj (Except.ok.inj heq)
        rw [← h1]
        exact cpdRawRowsImp_read _ h
    · rfl

/-- Witness for C9. -/
theorem addBias_computeCpd_nonmutating_witness :
    (0 : Nat) < ([dataA] : Store).length ∧
    (readDf (storeAfterAddBias [dataA] 0 "A" "X" true (1/5) rs0) 0 =
       readDf [dataA] 0 ∧
     readDf (storeAfterComputeCpd [dataA] 0 "X" (some ["A"])) 0 =
       readDf [dataA] 0) :=
  ⟨by decide,
   addBias_computeCpd_nonmutating [dataA] 0 "A" "X" "X" true (1/5) rs0
     (some ["A"]) (by decide)⟩

/-! ## Row sums of the CPD -/

theorem fillRow_cons (a : Option ℚ) (row : List (Option ℚ)) (f : ℚ)
    (fs : List ℚ) :
    fillRow (a :: row) (f :: fs) = a.getD f :: fillRow row fs := rfl

theorem fillList_length {m : Nat} (rows : List (List (Option ℚ)))
    (hm : 1 ≤ m) : (fillList m rows).length = m := by
  unfold fillList
  simp only [List.length_append, List.length_map, List.length_range,
    List.length_cons, List.length_nil]
  omega

theorem fillList_sum (m : Nat) (rows : List (List (Option ℚ))) :
    (fillList m rows).sum = 1 := by
  unfold fillList
  rw [List.sum_append, List.sum_cons, List.sum_nil]
  ring

theorem fillRow_all_none (l : List Int) (fills : List ℚ)
    (h : l.length = fills.length) :
    fillRow (l.map (fun _ => none)) fills = fills := by
  induction l generalizing fills with
  | nil =>
    cases fills with
    | nil => rfl
    | cons f fs => simp at h
  | cons x xs ih =>
    cases fills with
    | nil => simp at h
    | cons f fs =>
      rw [List.map_cons, fillRow_cons, Option.getD_none,
        ih fs (by simpa using h)]

theorem fillRow_all_some (l : List Int) (g : Int → ℚ) (fills : List ℚ)
    (h : l.length = fills.length) :
    fillRow (l.map (fun v => some (g v))) fills = l.map g := by
  induction l generalizing fills with
  | nil =>
    cases fills with
    | nil => rfl
    | cons f fs => simp at h
  | cons x xs ih =>
    cases fills with
    | nil => simp at h
    | cons f fs =>
      rw [List.map_cons, fillRow_cons, Option.getD_some, List.map_cons,
        ih fs (by simpa using h)]

theorem sum_map_boole_zero {a : Int} :
    ∀ {l : List Int}, a ∉ l →
      (l.map (fun v => if (a == v) = true then (1 : Nat) else 0)).sum = 0 := by
  intro l
  induction l with
  | nil => intro _; rfl
  | cons v vs ih =>
    intro ha
    rw [List.map_cons, List.sum_cons]
    rw [List.mem_cons, not_or] at ha
    rw [if_neg (by simpa using ha.1), ih ha.2]

theorem sum_map_boole {a : Int} :
    ∀ {l : List Int}, l.Nodup → a ∈ l →
      (l.map (fun v => if (a == v) = true then (1 : Nat) else 0)).sum = 1 := by
  intro l
  induction l with
  | nil => intro _ ha; cases ha
  | cons v vs ih =>
    intro hnd ha
    rw [List.map_cons, List.sum_cons]
    rcases List.mem_cons.mp ha with rfl | ha
    · rw [if_pos (by simp), sum_map_boole_zero (List.nodup_cons.mp hnd).1]
    · have hne2 : a ≠ v := fun heq => (List.nodup_cons.mp hnd).1 (heq ▸ ha)
      rw [if_neg (by simpa using hne2), ih (List.nodup_cons.mp hnd).2 ha]

theorem sum_map_add_nat {α : Type} (l : List α) (f g : α → Nat) :
    (l.map (fun x => f x + g x)).sum = (l.map f).sum + (l.map g).sum := by
  induction l with
  | nil => rfl
  | cons x xs ih =>
    simp only [List.map_cons, List.sum_cons, ih]
    omega

/-- Counting: when every row's key value occurs in the (duplicate-free)
list `supp`, the per-value filter lengths sum to the total length. -/
theorem sum_filter_lengths (varName : String) (supp : List Int)
    (hnd : supp.Nodup) :
    ∀ (xs : Df), (∀ r ∈ xs, r varName ∈ supp) →
      (supp.map
        (fun v => (xs.filter (fun r => r varName == v)).length)).sum =
        xs.length := by
  intro xs
  induction xs with
  | nil =>
    intro _
    rw [List.length_nil, List.sum_eq_zero]
    intro x hx
    rw [List.mem_map] at hx
    obtain ⟨v, -, rfl⟩ := hx
    rfl
  | cons r rest ih =>
    intro hmem
    have hstep : ∀ v ∈ supp,
        ((r :: rest).filter (fun q => q varName == v)).length =
          (if (r varName == v) = true then (1 : Nat) else 0) +
            (rest.filter (fun q => q varName == v)).length := by
      intro v _
      by_cases hb : (r varName == v) = true
      · rw [List.filter_cons, if_pos hb, if_pos hb, List.length_cons,
          Nat.add_comm]
      · rw [List.filter_cons, if_neg hb, if_neg hb, Nat.zero_add]
    rw [List.map_congr_left hstep, sum_map_add_nat,
      sum_map_boole hnd (hmem r (List.mem_cons_self _ _)),
      ih (fun q hq => hmem q (List.mem_cons_of_mem _ hq)), List.length_cons]
    omega

theorem sum_map_div_const {α : Type} (l : List α) (f : α → ℚ) (c : ℚ) :
    (l.map (fun x => f x / c)).sum = (l.map f).sum / c := by
  induction l with
  | nil => simp
  | cons x xs ih =>
    rw [List.map_cons, List.sum_cons, ih, List.map_cons, List.sum_cons,
      div_add_div_same]

theorem rowFiltered_subset (data : Df) (evidences : List String)
    (cs : List Int) : ∀ r ∈ rowFiltered data evidences cs, r ∈ data := by
  unfold rowFiltered
  generalize (evidences.zip cs) = ps
  induction ps generalizing data with
  | nil => intro r hr; exact hr
  | cons p ps ih =>
    intro r hr
    rw [List.foldl_cons] at hr
    exact List.mem_of_mem_filter (ih (data.filter _) r hr)

/-- The sum of the empirical frequencies over the whole support is 1. -/
theorem sum_ratio_row (varName : String) (supp : List Int) (hnd : supp.Nodup)
    (filtered : Df) (hmem : ∀ r ∈ filtered, r varName ∈ supp)
    (hne : filtered.length ≠ 0) :
    (supp.map (fun v =>
      ((filtered.filter (fun r => r varName == v)).length : ℚ) /
        (filtered.length : ℚ))).sum = 1 := by
  rw [sum_map_div_const supp
    (fun v => ((filtered.filter (fun r => r varName == v)).length : ℚ)) _]
  have : (supp.map (fun v =>
      ((filtered.filter (fun r => r varName == v)).length : ℚ))) =
      ((supp.map (fun v =>
        (filtered.filter (fun r => r varName == v)).length)).map
          (fun n : Nat => (n : ℚ))) := by
    rw [List.map_map]
    rfl
  rw [this, ← Nat.cast_list_sum, sum_filter_lengths varName supp hnd filtered
    hmem, div_self]
  exact Nat.cast_ne_zero.mpr hne

/-- C1: every row of a `compute_cpd` output table sums to exactly 1,
including rows whose evidence combination matched no data rows and whose
cells come from the fill-in policy. -/
theorem computeCpd_rows_sum_one (data : Df) (varName : String)
    (evidences : Option (List String)) (c : Cpd)
    (h : computeCpd data varName evidences = .ok c) :
    ∀ row ∈ c.rows, row.sum = 1 := by
  unfold computeCpd at h
  dsimp only at h
  split at h
  · exact absurd h (by simp)
  · next hns =>
    rw [← Except.ok.inj h]
    dsimp only
    intro row hrow
    rw [List.mem_map] at hrow
    obtain ⟨raw, hraw, rfl⟩ := hrow
    rw [cpdRawRows, List.mem_map] at hraw
    obtain ⟨cs, -, rfl⟩ := hraw
    rw [cpdRawRow]
    have hlen : (support data varName).length =
        (fillList (support data varName).length
          (cpdRawRows data varName evidences)).length :=
      (fillList_length _ (by omega)).symm
    split
    · rw [fillRow_all_none _ _ (by simpa using hlen)]
      exact fillList_sum _ _
    · next hfne =>
      rw [fillRow_all_some _ _ _ (by simpa using hlen)]
      exact sum_ratio_row varName (support data varName)
        (support_nodup data varName) _
        (fun r hr => mem_support.mpr
          ⟨r, rowFiltered_subset data (evidences.getD []) cs r hr, rfl⟩)
        hfne

/-- Witness for C1: a dataset where two of the four evidence combinations
match no rows, so two output rows are produced entirely by the fill-in
policy — and still sum to 1. -/
theorem computeCpd_rows_sum_one_witness :
    computeCpd dataB "X" (some ["A", "B"]) =
      .ok (cpdOf (computeCpd dataB "X" (some ["A", "B"]))) ∧
    ∀ row ∈ (cpdOf (computeCpd dataB "X" (some ["A", "B"]))).rows,
      row.sum = 1 :=
  ⟨rfl, computeCpd_rows_sum_one dataB "X" (some ["A", "B"]) _ rfl⟩

/-! ## The fill-in values -/

/-- C2 counterexample: in `dataB` the evidence combinations (0,1) and (1,0)
match no rows; the code fills the first column of those rows with 1/4 — the
column mean after writing 0.0 into the missing cells — while the mean over
the defined entries only (the spec's rule) is 1/2. -/
theorem computeCpd_fill_not_mean_over_defined :
    cpdParts (computeCpd dataB "X" (some ["A", "B"])) =
      some ([" A==0  B==0 ", " A==0  B==1 ", " A==1  B==0 ", " A==1  B==1 "],
        [0, 1], [[1, 0], [1/4, 3/4], [1/4, 3/4], [0, 1]]) ∧
    (cpdRawRows dataB "X" (some ["A", "B"])).getD 1 [] = [none, none] ∧
    specFillMeanDefined (cpdRawRows dataB "X" (some ["A", "B"])) 0 = 1/2 ∧
    ((1 : ℚ)/4) ≠ 1/2 := by
  refine ⟨?_, ?_, ?_, ?_⟩ <;> with_unfolding_all decide

theorem getD_map_lt {α β : Type} (l : List α) (f : α → β) (i : Nat)
    (d : β) (d1 : α) (hi : i < l.length) :
    (l.map f).getD i d = f (l.getD i d1) := by
  rw [List.getD_eq_getElem?_getD, List.getD_eq_getElem?_getD,
    List.getElem?_map, List.getElem?_eq_getElem hi]
  rfl

theorem cpdRawRows_length (data : Df) (varName : String)
    (evidences : Option (List String)) :
    ∀ row ∈ cpdRawRows data varName evidences,
      row.length = (support data varName).length := by
  intro row hrow
  rw [cpdRawRows, List.mem_map] at hrow
  obtain ⟨cs, -, rfl⟩ := hrow
  rw [cpdRawRow]
  split <;> simp

theorem fillRow_getD_none (row : List (Option ℚ)) :
    ∀ (fills : List ℚ) (j : Nat), j < row.length →
      row.length = fills.length → row.getD j none = none →
      (fillRow row fills).getD j 0 = fills.getD j 0 := by
  induction row with
  | nil => intro fills j hj _ _; cases hj
  | cons a as ih =>
    intro fills j hj hlen hmiss
    cases fills with
    | nil => simp at hlen
    | cons f fs =>
      rw [fillRow_cons]
      cases j with
      | zero =>
        rw [List.getD_cons_zero] at hmiss
        rw [List.getD_cons_zero, List.getD_cons_zero, hmiss]
        rfl
      | succ j =>
        rw [List.getD_cons_succ] at hmiss
        rw [List.getD_cons_succ, List.getD_cons_succ]
        exact ih fs j (by simpa using hj) (by simpa using hlen) hmiss

theorem fillList_getD (m : Nat) (rows : List (List (Option ℚ))) (j : Nat)
    (hj : j < m) :
    (fillList m rows).getD j 0 =
      if j + 1 < m then colZeroSum rows j / (rows.length : ℚ)
      else 1 - ((List.range (m - 1)).map
        (fun k => colZeroSum rows k / (rows.length : ℚ))).sum := by
  unfold fillList
  by_cases hj1 : j + 1 < m
  · rw [if_pos hj1]
    have hjlt : j < ((List.range (m - 1)).map
        (fun k => colZeroSum rows k / (rows.length : ℚ))).length := by
      rw [List.length_map, List.length_range]
      omega
    rw [List.getD_eq_getElem?_getD, List.getElem?_append_left hjlt,
      ← List.getD_eq_getElem?_getD,
      getD_map_lt _ _ j 0 0 (by rw [List.length_range]; omega)]
    congr 1
    rw [List.getD_eq_getElem?_getD, List.getElem?_eq_getElem
      (by rw [List.length_range]; omega : j < (List.range (m - 1)).length)]
    simp [List.getElem_range]
  · rw [if_neg hj1]
    have hlena : ((List.range (m - 1)).map
        (fun k => colZeroSum rows k / (rows.length : ℚ))).length = m - 1 := by
      rw [List.length_map, List.length_range]
    have hje : j = m - 1 := by omega
    rw [List.getD_eq_getElem?_getD, List.getElem?_append_right
      (by omega : ((List.range (m - 1)).map
        (fun k => colZeroSum rows k / (rows.length : ℚ))).length ≤ j)]
    rw [hlena, hje]
    simp

/-- C2 (amended): for every non-last target-value column, a missing cell is
filled with the column mean computed after writing 0.0 into the missing
cells — the NaN-as-zero column sum divided by the total number of CPD rows
(`cpd.fillna(0.0)[v].mean()`), not the mean over defined entries only; the
last column's fill value is 1 minus the sum of the other columns' fill
values. -/
theorem computeCpd_fill_values (data : Df) (varName : String)
    (evidences : Option (List String)) (c : Cpd)
    (h : computeCpd data varName evidences = .ok c)
    (i j : Nat) (hj : j < c.columns.length)
    (hi : i < (cpdRawRows data varName evidences).length)
    (hmiss : ((cpdRawRows data varName evidences).getD i []).getD j none
      = none) :
    (c.rows.getD i []).getD j 0 =
      if j + 1 < c.columns.length then
        colZeroSum (cpdRawRows data varName evidences) j /
          ((cpdRawRows data varName evidences).length : ℚ)
      else 1 - ((List.range (c.columns.length - 1)).map
        (fun k => colZeroSum (cpdRawRows data varName evidences) k /
          ((cpdRawRows data varName evidences).length : ℚ))).sum := by
  unfold computeCpd at h
  dsimp only at h
  split at h
  · exact absurd h (by simp)
  · next hns =>
    have hcols : c.columns = support data varName := by
      rw [← Except.ok.inj h]
    have hrows : c.rows = (cpdRawRows data varName evidences).map
        (fun row => fillRow row
          (fillList (support data varName).length
            (cpdRawRows data varName evidences))) := by
      rw [← Except.ok.inj h]
    rw [hcols] at hj
    rw [hrows, getD_map_lt _ _ i [] [] hi]
    have hrowlen : ((cpdRawRows data varName evidences).getD i []).length =
        (support data varName).length := by
      apply cpdRawRows_length
      rw [List.getD_eq_getElem?_getD, List.getElem?_eq_getElem hi]
      exact List.getElem_mem hi
    rw [fillRow_getD_none _ _ j (by rw [hrowlen]; exact hj)
      (by rw [hrowlen, fillList_length _ (by omega)]) hmiss]
    rw [fillList_getD _ _ j hj, hcols]

/-- Witness for the amended C2 at the concrete fill-in scenario. -/
theorem computeCpd_fill_values_witness :
    computeCpd dataB "X" (some ["A", "B"]) =
      .ok (cpdOf (computeCpd dataB "X" (some ["A", "B"]))) ∧
    0 < (cpdOf (computeCpd dataB "X" (some ["A", "B"]))).columns.length ∧
    1 < (cpdRawRows dataB "X" (some ["A", "B"])).length ∧
    ((cpdRawRows dataB "X" (some ["A", "B"])).getD 1 []).getD 0 none
      = none ∧
    ((cpdOf (computeCpd dataB "X" (some ["A", "B"]))).rows.getD 1 []).getD
        0 0 =
      if 0 + 1 <
          (cpdOf (computeCpd dataB "X" (some ["A", "B"]))).columns.length then
        colZeroSum (cpdRawRows dataB "X" (some ["A", "B"])) 0 /
          ((cpdRawRows dataB "X" (some ["A", "B"])).length : ℚ)
      else 1 - ((List.range
        ((cpdOf (computeCpd dataB "X" (some ["A", "B"]))).columns.length
          - 1)).map
        (fun k => colZeroSum (cpdRawRows dataB "X" (some ["A", "B"])) k /
          ((cpdRawRows dataB "X" (some ["A", "B"])).length : ℚ))).sum :=
  ⟨rfl, by with_unfolding_all decide, by with_unfolding_all decide,
   by with_unfolding_all decide,
   computeCpd_fill_values dataB "X" (some ["A", "B"]) _ rfl 1 0
     (by with_unfolding_all decide) (by with_unfolding_all decide)
     (by with_unfolding_all decide)⟩

/-! ## The cell formula -/

theorem fillRow_length (row : List (Option ℚ)) (fills : List ℚ) :
    (fillRow row fills).length = min row.length fills.length := by
  rw [fillRow, List.length_map, List.length_zip]

/-- C3: for every evidence combination whose filter selects a non-empty
subset, the cell for the j-th target value is the matching-count divided by
the subset size; and the spec's concrete scenario holds. -/
theorem computeCpd_cell_formula :
    (∀ (data : Df) (varName : String) (evs : List String) (c : Cpd),
      computeCpd data varName (some evs) = .ok c →
      ∀ i, i < (rowsConstraints data (some evs)).length →
      (rowFiltered data evs
        ((rowsConstraints data (some evs)).getD i [])).length ≠ 0 →
      ∀ j, j < c.columns.length →
      (c.rows.getD i []).getD j 0 =
        (((rowFiltered data evs
            ((rowsConstraints data (some evs)).getD i [])).filter
            (fun r => r varName == c.columns.getD j 0)).length : ℚ) /
          ((rowFiltered data evs
            ((rowsConstraints data (some evs)).getD i [])).length : ℚ)) ∧
    cpdParts (computeCpd dataA "X" (some ["A"])) =
      some ([" A==0 ", " A==1 "], [0, 1], [[1/2, 1/2], [0, 1]]) := by
  constructor
  · intro data varName evs c h i hi hne j hj
    unfold computeCpd at h
    dsimp only at h
    split at h
    · exact absurd h (by simp)
    · next hns =>
      have hcols : c.columns = support data varName := by
        rw [← Except.ok.inj h]
      have hrows : c.rows = (cpdRawRows data varName (some evs)).map
          (fun row => fillRow row
            (fillList (support data varName).length
              (cpdRawRows data varName (some evs)))) := by
        rw [← Except.ok.inj h]
      rw [hcols] at hj
      have hi1 : i < (cpdRawRows data varName (some evs)).length := by
        rw [cpdRawRows, List.length_map]
        exact hi
      rw [hrows, getD_map_lt _ _ i [] [] hi1]
      have hraw : (cpdRawRows data varName (some evs)).getD i [] =
          cpdRawRow (rowFiltered data evs
            ((rowsConstraints data (some evs)).getD i []))
            varName (support data varName) := by
        rw [cpdRawRows, getD_map_lt _ _ i [] [] hi]
        rfl
      rw [hraw, cpdRawRow, if_neg hne,
        fillRow_all_some _ _ _
          (by rw [fillList_length _ (by omega)]),
        getD_map_lt _ _ j 0 0 (by exact hj), hcols]
  · with_unfolding_all decide

/-- Witness for C3 at the scenario dataset, row `A==0`, target value 1. -/
theorem computeCpd_cell_formula_witness :
    computeCpd dataA "X" (some ["A"]) =
      .ok (cpdOf (computeCpd dataA "X" (some ["A"]))) ∧
    0 < (rowsConstraints dataA (some ["A"])).length ∧
    (rowFiltered dataA ["A"]
      ((rowsConstraints dataA (some ["A"])).getD 0 [])).length ≠ 0 ∧
    1 < (cpdOf (computeCpd dataA "X" (some ["A"]))).columns.length ∧
    ((cpdOf (computeCpd dataA "X" (some ["A"]))).rows.getD 0 []).getD 1 0 =
      (List.length ((rowFiltered dataA ["A"]
          ((rowsConstraints dataA (some ["A"])).getD 0 [])).filter
          (fun r => r "X" ==
            (cpdOf (computeCpd dataA "X" (some ["A"]))).columns.getD 1 0))
        : ℚ) /
        ((rowFiltered dataA ["A"]
          ((rowsConstraints dataA (some ["A"])).getD 0 [])).length : ℚ) :=
  ⟨rfl, by decide, by decide, by with_unfolding_all decide,
   computeCpd_cell_formula.1 dataA "X" ["A"] _ rfl 0 (by decide) (by decide)
     1 (by with_unfolding_all decide)⟩

/-! ## Shape and enumeration order of the CPD -/

theorem sum_map_const_nat {α : Type} (l : List α) (c : Nat) :
    (l.map (fun _ => c)).sum = l.length * c := by
  induction l with
  | nil => simp
  | cons x xs ih =>
    rw [List.map_cons, List.sum_cons, ih, List.length_cons]
    ring

theorem cartProd_length : ∀ ls : List (List Int),
    (cartProd ls).length = (ls.map List.length).prod := by
  intro ls
  induction ls with
  | nil => rfl
  | cons xs rest ih =>
    rw [cartProd, List.length_flatMap, List.map_cons, List.prod_cons, ← ih]
    have hpt : ∀ x ∈ xs,
        (List.length ∘ fun y => (cartProd rest).map (fun cs => y :: cs)) x =
          (fun _ : Int => (cartProd rest).length) x :=
      fun x _ => List.length_map _ _
    rw [List.map_congr_left hpt, sum_map_const_nat]

theorem cartProd_mem : ∀ (ls : List (List Int)) (cs : List Int),
    cs ∈ cartProd ls ↔ List.Forall₂ (fun x l => x ∈ l) cs ls := by
  intro ls
  induction ls with
  | nil =>
    intro cs
    rw [cartProd]
    constructor
    · intro h
      rw [List.mem_singleton] at h
      subst h
      exact .nil
    · intro h
      cases h
      simp
  | cons xs rest ih =>
    intro cs
    rw [cartProd, List.mem_flatMap]
    constructor
    · rintro ⟨x, hx, hcs⟩
      rw [List.mem_map] at hcs
      obtain ⟨cs1, hcs1, rfl⟩ := hcs
      exact .cons hx ((ih cs1).mp hcs1)
    · intro h
      cases h with
      | cons hx hrest =>
        exact ⟨_, hx, List.mem_map.mpr ⟨_, (ih _).mpr hrest, rfl⟩⟩

theorem cartProd_pairwise_lex : ∀ ls : List (List Int),
    (∀ l ∈ ls, l.Pairwise (· < ·)) →
    (cartProd ls).Pairwise (List.Lex (· < ·)) := by
  intro ls
  induction ls with
  | nil => intro _; simp [cartProd]
  | cons xs rest ih =>
    intro h
    rw [cartProd, List.pairwise_flatMap]
    constructor
    · intro x _
      rw [List.pairwise_map]
      exact (ih (fun l hl => h l (List.mem_cons_of_mem _ hl))).imp
        (fun hab => List.Lex.cons hab)
    · have hxs : xs.Pairwise (· < ·) := h xs (List.mem_cons_self _ _)
      refine hxs.imp ?_
      intro x1 x2 h12 b1 hb1 b2 hb2
      rw [List.mem_map] at hb1 hb2
      obtain ⟨cs1, -, rfl⟩ := hb1
      obtain ⟨cs2, -, rfl⟩ := hb2
      exact List.Lex.rel h12

/-- C4: the CPD has one row per constraint tuple — exactly the product of
the evidence support sizes, or exactly 1 when no evidences are given —
and `|support(variable)|` columns holding the sorted target support; the
rows are enumerated as the Cartesian product of the sorted evidence
supports with the leftmost evidence varying slowest (so the tuple list is
strictly increasing in lexicographic order and contains each combination
of support members exactly once). -/
theorem computeCpd_shape (data : Df) (varName : String)
    (evidences : Option (List String)) (c : Cpd)
    (h : computeCpd data varName evidences = .ok c) :
    c.rows.length = (rowsConstraints data evidences).length ∧
    (evidences = none → c.rows.length = 1) ∧
    (∀ evs, evidences = some evs →
      c.rows.length = (evs.map (fun e => (support data e).length)).prod) ∧
    (∀ row ∈ c.rows, row.length = c.columns.length) ∧
    c.columns.length = (support data varName).length ∧
    c.columns.Pairwise (· < ·) ∧
    (∀ v, v ∈ c.columns ↔ ∃ r ∈ data, r varName = v) ∧
    (∀ evs, evidences = some evs →
      (rowsConstraints data (some evs)).Pairwise (List.Lex (· < ·)) ∧
      ∀ cs, cs ∈ rowsConstraints data (some evs) ↔
        List.Forall₂ (fun x e => x ∈ support data e) cs evs) := by
  unfold computeCpd at h
  dsimp only at h
  split at h
  · exact absurd h (by simp)
  · next hns =>
    have hcols : c.columns = support data varName := by
      rw [← Except.ok.inj h]
    have hrows : c.rows = (cpdRawRows data varName evidences).map
        (fun row => fillRow row
          (fillList (support data varName).length
            (cpdRawRows data varName evidences))) := by
      rw [← Except.ok.inj h]
    have hlen : c.rows.length = (rowsConstraints data evidences).length := by
      rw [hrows, List.length_map, cpdRawRows, List.length_map]
    refine ⟨hlen, ?_, ?_, ?_, ?_, ?_, ?_, ?_⟩
    · rintro rfl
      rw [hlen]
      rfl
    · rintro evs rfl
      rw [hlen, rowsConstraints, cartProd_length, List.map_map]
      rfl
    · intro row hrow
      rw [hrows, List.mem_map] at hrow
      obtain ⟨raw, hraw, rfl⟩ := hrow
      rw [fillRow_length, cpdRawRows_length data varName evidences raw hraw,
        fillList_length _ (by omega), hcols, Nat.min_self]
    · rw [hcols]
    · rw [hcols]
      exact support_sorted_lt data varName
    · intro v
      rw [hcols]
      exact mem_support
    · rintro evs rfl
      constructor
      · apply cartProd_pairwise_lex
        intro l hl
        rw [List.mem_map] at hl
        obtain ⟨e, -, rfl⟩ := hl
        exact support_sorted_lt data e
      · intro cs
        rw [rowsConstraints, cartProd_mem, List.forall₂_map_right_iff]

/-- Witness for C4 at the scenario dataset. -/
theorem computeCpd_shape_witness :
    computeCpd dataA "X" (some ["A"]) =
      .ok (cpdOf (computeCpd dataA "X" (some ["A"]))) ∧
    ((cpdOf (computeCpd dataA "X" (some ["A"]))).rows.length =
        (rowsConstraints dataA (some ["A"])).length ∧
      (some ["A"] = none →
        (cpdOf (computeCpd dataA "X" (some ["A"]))).rows.length = 1) ∧
      (∀ evs, some ["A"] = some evs →
        (cpdOf (computeCpd dataA "X" (some ["A"]))).rows.length =
          (evs.map (fun e => (support dataA e).length)).prod) ∧
      (∀ row ∈ (cpdOf (computeCpd dataA "X" (some ["A"]))).rows,
        row.length =
          (cpdOf (computeCpd dataA "X" (some ["A"]))).columns.length) ∧
      (cpdOf (computeCpd dataA "X" (some ["A"]))).columns.length =
        (support dataA "X").length ∧
      (cpdOf (computeCpd dataA "X" (some ["A"]))).columns.Pairwise (· < ·) ∧
      (∀ v, v ∈ (cpdOf (computeCpd dataA "X" (some ["A"]))).columns ↔
        ∃ r ∈ dataA, r "X" = v) ∧
      (∀ evs, some ["A"] = some evs →
        (rowsConstraints dataA (some evs)).Pairwise (List.Lex (· < ·)) ∧
        ∀ cs, cs ∈ rowsConstraints dataA (some evs) ↔
          List.Forall₂ (fun x e => x ∈ support dataA e) cs evs)) :=
  ⟨rfl, computeCpd_shape dataA "X" (some ["A"]) _ rfl⟩
